import Mathlib

/-!
Shallow embedding of src/download.py (NICFI tile downloader).

The Python program walks a paginated tile catalog, deduplicates tile
records against a JSON cache, persists the cache, and downloads each
tile to a deterministic path, skipping files that already exist.
Network and filesystem behaviour are modelled by explicit oracles so
that the control flow of the source (retry loops, exception handling,
cache write-back) is reproduced faithfully.
-/

namespace NICFI

/-! ### Data model -/

/-- A cached tile record, as built by fetch_quad_links (lines 133-139 of
src/download.py).  Bbox coordinates and coverage are carried opaquely. -/
structure QuadRecord where
  mosaic_id : String
  id : String
  bbox : List Int
  percent_covered : Int
  download_url : String
deriving DecidableEq, Repr

/-- One JSON item of a quads page.  Every field that the source reads by
indexing may be absent.  `links` models the "_links" object of the item:
outer `none` means the item has no "_links" key (indexing raises), the
inner option is the result of `.get("download")`. -/
structure Item where
  id : Option String
  links : Option (Option String)
  bbox : Option (List Int)
  percent_covered : Option Int
deriving DecidableEq, Repr

/-- One quads page.  `links` models the page-level "_links" object: outer
`none` means the key is absent (indexing raises), the inner option is
`.get("_next", None)`. -/
structure Page where
  items : List Item
  links : Option (Option String)
deriving DecidableEq, Repr

/-- Behaviour of the network for one page URL: success after some failed
attempts (each failed attempt raised RequestException), or exhaustion of
all five attempts. -/
inductive PageFetch
  | success (failedAttempts : Nat) (page : Page)
  | exhausted
deriving DecidableEq, Repr

/-- Python truthiness of the `download_url` value obtained from
`quad["_links"].get("download")`: `None` and `""` are falsy. -/
def truthy : Option String → Bool
  | none => false
  | some s => s != ""

/-- Processing of a single page item (lines 127-140 of src/download.py).
State is the pair (all_quads, seen_quads); `Except` error models a raised
KeyError from unguarded indexing. -/
def processItem (mId : String) (st : List QuadRecord × List (String × String))
    (item : Item) : Except Unit (List QuadRecord × List (String × String)) :=
  match item.id with
  | none => .error ()
  | some quad_id =>
    match item.links with
    | none => .error ()
    | some dl =>
      if (mId, quad_id) ∉ st.2 ∧ truthy dl = true then
        match dl, item.bbox, item.percent_covered with
        | some u, some b, some pc =>
            .ok (st.1 ++ [{ mosaic_id := mId, id := quad_id, bbox := b,
                            percent_covered := pc, download_url := u }],
                 st.2 ++ [(mId, quad_id)])
        | _, _, _ => .error ()
      else .ok st

/-- Fold `processItem` over the items of one page, propagating a raise. -/
def processItems (mId : String) (st : List QuadRecord × List (String × String)) :
    List Item → Except Unit (List QuadRecord × List (String × String))
  | [] => .ok st
  | it :: rest =>
    match processItem mId st it with
    | .error e => .error e
    | .ok st2 => processItems mId st2 rest

/-- Fold `processItem` over a list of pages (used to state what a walk
over successful pages accumulates). -/
def processPages (mId : String) (st : List QuadRecord × List (String × String)) :
    List Page → Except Unit (List QuadRecord × List (String × String))
  | [] => .ok st
  | p :: rest =>
    match processItems mId st p.items with
    | .error e => .error e
    | .ok st2 => processPages mId st2 rest

/-- The sleeps performed by the inner retry loop of fetch_quad_links when
the page fetch fails `f` times starting from delay `d`: the source sleeps
`retry_delay` after each failure and then doubles it (lines 121-122). -/
def attemptSleeps (d : Nat) (f : Nat) : List Nat :=
  (List.range f).map (fun k => d * 2 ^ k)

/-- Sleeps performed when all five attempts on a page fail (the source
sleeps before checking `retries == max_retries`, so five sleeps occur). -/
def exhaustSleeps (d : Nat) : List Nat := attemptSleeps d 5

/-- How a call to fetch_quad_links ended. -/
inductive TermKind
  | normal
  | exhaustedPage
  | raised
deriving DecidableEq, Repr

/-- Observable result of one fetch_quad_links call: the returned value or
raised exception, whether the cache write-back plus save_cache ran
(lines 145-146), the retry sleeps in order, and how the call ended. -/
structure FetchOut where
  result : Except Unit (List QuadRecord)
  cacheWritten : Bool
  sleeps : List Nat
  terminated : TermKind
deriving Repr

/-- Main loop of fetch_quad_links (lines 110-148 of src/download.py).
`pages` supplies the network behaviour for each successive page URL; an
empty list behaves like an unresponsive network (exhaustion).  On retry
exhaustion the accumulated list is returned with no cache write-back
(line 125); a raise while processing items or reading the page's
"_links" propagates through the outer handler which logs and re-raises
(lines 149-151); when the next link is absent the cache is written and
saved before returning (lines 142-148). -/
def fetchGo (mId : String) (pages : List PageFetch) (all_quads : List QuadRecord)
    (seen : List (String × String)) (retry_delay : Nat) (sleeps : List Nat) :
    FetchOut :=
  match pages with
  | [] =>
      { result := .ok all_quads, cacheWritten := false,
        sleeps := sleeps ++ exhaustSleeps retry_delay, terminated := .exhaustedPage }
  | .exhausted :: _ =>
      { result := .ok all_quads, cacheWritten := false,
        sleeps := sleeps ++ exhaustSleeps retry_delay, terminated := .exhaustedPage }
  | .success f page :: rest =>
      let sleeps2 := sleeps ++ attemptSleeps retry_delay f
      let delay2 := retry_delay * 2 ^ f
      match processItems mId (all_quads, seen) page.items with
      | .error e =>
          { result := .error e, cacheWritten := false, sleeps := sleeps2,
            terminated := .raised }
      | .ok st =>
        match page.links with
        | none =>
            { result := .error (), cacheWritten := false, sleeps := sleeps2,
              terminated := .raised }
        | some nxt =>
          match nxt with
          | none =>
              { result := .ok st.1, cacheWritten := true, sleeps := sleeps2,
                terminated := .normal }
          | some _ => fetchGo mId rest st.1 st.2 delay2 sleeps2

/-- The seen-set seeded from the cache entry (line 103 of src/download.py):
the pair uses the `mosaic_id` parameter, not the record's own field. -/
def seedSeen (mId : String) (cached : List QuadRecord) : List (String × String) :=
  cached.map (fun r => (mId, r.id))

/-- fetch_quad_links (lines 95-151 of src/download.py): seeds all_quads
from the cache entry, seeds the seen set, starts with retry_delay = 2,
and walks the pages. -/
def fetch_quad_links (mId : String) (cached : List QuadRecord)
    (pages : List PageFetch) : FetchOut :=
  fetchGo mId pages cached (seedSeen mId cached) 2 []

/-- The dedup key of a record: (collection identifier, tile identifier). -/
def quadKey (r : QuadRecord) : String × String := (r.mosaic_id, r.id)

/-- A sequence of fetch sessions against the same collection, threading
the record list each session returns into the next session's cache seed,
starting from the program's initial empty cache.  A session that raised
leaves the cache entry as it was. -/
def runSessions (mId : String) (sessions : List (List PageFetch)) :
    List QuadRecord :=
  sessions.foldl
    (fun cached pages =>
      match (fetch_quad_links mId cached pages).result with
      | .ok r => r
      | .error _ => cached)
    []

/-! ### Download side (download_quad, download_all_quads) -/

/-- A JSON value stored under "download_url" in a quad dict: either a
string or some non-string value (the source checks `isinstance(..., str)`
at line 161). -/
inductive JVal
  | str (s : String)
  | other
deriving DecidableEq, Repr

/-- A quad dict as consumed by download_quad: every field is read with
`.get`, so each may be absent. -/
structure DQuad where
  download_url : Option JVal
  mosaic_id : Option String
  id : Option String
deriving DecidableEq, Repr

/-- Behaviour of the network for one download URL: the GET or
raise_for_status raises before any byte is written (`err`), the stream
delivers a prefix `got` of the body and then raises mid-transfer
(`streamFail`), or the whole body arrives (`ok`). -/
inductive NetDl
  | err
  | streamFail (got : List Nat)
  | ok (body : List Nat)
deriving DecidableEq, Repr

/-- Per-tile outcome as recorded in the log by download_quad. -/
inductive Outcome
  | invalidUrl
  | alreadyPresent
  | downloaded
  | downloadFailed
deriving DecidableEq, Repr

/-- The filesystem: an association of paths to file contents (byte
chunks modelled as naturals). -/
abbrev FS := List (String × List Nat)

/-- os.path.exists. -/
def fsHas (fs : FS) (p : String) : Bool := fs.any (fun e => e.1 == p)

/-- Writing a file: the path now maps to `body`, all other paths are
unchanged. -/
def fsSet (fs : FS) (p : String) (body : List Nat) : FS :=
  (p, body) :: fs.filter (fun e => e.1 != p)

/-- Read a file's contents, if the file exists. -/
def fsGet (fs : FS) (p : String) : Option (List Nat) :=
  (fs.find? (fun e => e.1 == p)).map (fun e => e.2)

/-- The destination path derived in download_quad (lines 158-167):
`output_dir/<mosaic_id>_<id>.tif`, with `.get` defaults. -/
def quadFilepath (quad : DQuad) (output_dir : String) : String :=
  output_dir ++ "/" ++ quad.mosaic_id.getD "unknown_mosaic" ++ "_" ++
    quad.id.getD "unknown_id" ++ ".tif"

/-- Observable result of one download_quad call: the logged outcome, or
`.error` when an exception escapes the function (only RequestException is
caught at line 181, so an OSError from open/write propagates); the
filesystem after the call; and the number of network requests issued. -/
structure DlOut where
  result : Except Unit Outcome
  fs : FS
  netCalls : Nat
deriving Repr

/-- download_quad (lines 155-182 of src/download.py).  `net` gives the
network behaviour per URL; `fsWriteFails` says whether opening/writing
the given path raises OSError.  The URL check precedes the existence
check; an existing file short-circuits with no request; the body is
streamed chunk-wise into the FINAL path, so a mid-transfer raise leaves
the prefix received so far as the file's contents while the handler
logs the failure and returns. -/
def download_quad (quad : DQuad) (output_dir : String) (net : String → NetDl)
    (fsWriteFails : String → Bool) (fs : FS) : DlOut :=
  match quad.download_url with
  | some (.str url) =>
    let filepath := quadFilepath quad output_dir
    if fsHas fs filepath then
      { result := .ok .alreadyPresent, fs := fs, netCalls := 0 }
    else
      match net url with
      | .err => { result := .ok .downloadFailed, fs := fs, netCalls := 1 }
      | .ok body =>
          if fsWriteFails filepath then
            { result := .error (), fs := fs, netCalls := 1 }
          else
            { result := .ok .downloaded, fs := fsSet fs filepath body, netCalls := 1 }
      | .streamFail got =>
          if fsWriteFails filepath then
            { result := .error (), fs := fs, netCalls := 1 }
          else
            { result := .ok .downloadFailed, fs := fsSet fs filepath got, netCalls := 1 }
  | _ => { result := .ok .invalidUrl, fs := fs, netCalls := 0 }

/-- Observable result of download_all_quads: one per-task result for
every submitted quad (the executor's context manager waits for all
submitted tasks, so each task runs to completion even if an earlier
`future.result()` re-raised), the final filesystem, and the total number
of network requests. -/
structure BatchOut where
  results : List (Except Unit Outcome)
  fs : FS
  netCalls : Nat
deriving Repr

/-- Run every submitted download task in submission order, accumulating
filesystem effects and request counts. -/
def runQuads (output_dir : String) (net : String → NetDl)
    (fsWriteFails : String → Bool) :
    List DQuad → FS → Nat → List (Except Unit Outcome) → BatchOut
  | [], fs, n, acc => { results := acc, fs := fs, netCalls := n }
  | q :: rest, fs, n, acc =>
    let o := download_quad q output_dir net fsWriteFails fs
    runQuads output_dir net fsWriteFails rest o.fs (n + o.netCalls) (acc ++ [o.result])

/-- The result-gathering loop (lines 197-198): `future.result()` in
submission order re-raises the first stored exception; otherwise the
batch completes normally with the list of per-tile outcomes. -/
def firstError : List (Except Unit Outcome) → Except Unit (List Outcome)
  | [] => .ok []
  | .error e :: _ => .error e
  | .ok o :: rest =>
    match firstError rest with
    | .error e => .error e
    | .ok os => .ok (o :: os)

/-- download_all_quads (lines 187-198 of src/download.py): derives the
mosaic output directory, submits every quad, waits for all tasks, and
re-raises the first task exception if any. -/
def download_all_quads (quads : List DQuad) (mosaic_name : String)
    (base_output_dir : String) (net : String → NetDl)
    (fsWriteFails : String → Bool) (fs : FS) :
    BatchOut × Except Unit (List Outcome) :=
  let dir := base_output_dir ++ "/" ++ mosaic_name
  let b := runQuads dir net fsWriteFails quads fs 0 []
  (b, firstError b.results)

/-! ### Catalog listing, orchestrator and process surface -/

/-- One mosaic object of the catalog listing (fields read by the source:
"name" during filtering, "id" and "name" in the main loop). -/
structure MosaicJ where
  id : String
  name : String
deriving DecidableEq, Repr

/-- One page of the catalog listing. `next` is
`response_json["_links"].get("_next")`. -/
structure CatPage where
  mosaics : List MosaicJ
  next : Option String
deriving DecidableEq, Repr

/-- Network behaviour for one catalog page URL. -/
inductive CatFetch
  | success (failedAttempts : Nat) (page : CatPage)
  | exhausted
deriving DecidableEq, Repr

/-- Does the first character list lead (begin) the second? -/
def charsLead : List Char → List Char → Bool
  | [], _ => true
  | _ :: _, [] => false
  | a :: as, b :: bs => a == b && charsLead as bs

/-- Python's `name.startswith("planet_medres_normalized")` (line 75 of
src/download.py), embedded structurally on the character lists. -/
def nameMatches (s : String) : Bool :=
  charsLead "planet_medres_normalized".data s.data

/-- Observable result of fetch_nicfi_mosaics: the mosaic list or the
raised exception, plus the retry sleeps in order. -/
structure CatOut where
  result : Except Unit (List MosaicJ)
  sleeps : List Nat
deriving Repr

/-- Loop of fetch_nicfi_mosaics (lines 59-91 of src/download.py): fixed
10-second delay, `for attempt in range(5)`, sleep only when
`attempt < retries - 1`, so success after `f` failures slept `f` times
and total failure slept 4 times before raising.  Pages are filtered to
mosaics whose name starts with the fixed prefix (line 75). -/
def fetchCatGo : List CatFetch → List MosaicJ → List Nat → CatOut
  | [], _, s => { result := .error (), sleeps := s ++ List.replicate 4 10 }
  | .exhausted :: _, _, s => { result := .error (), sleeps := s ++ List.replicate 4 10 }
  | .success f page :: rest, acc, s =>
    let acc2 := acc ++ page.mosaics.filter (fun m => nameMatches m.name)
    let s2 := s ++ List.replicate f 10
    match page.next with
    | none => { result := .ok acc2, sleeps := s2 }
    | some _ => fetchCatGo rest acc2 s2

/-- fetch_nicfi_mosaics (lines 59-91 of src/download.py). -/
def fetch_nicfi_mosaics (pages : List CatFetch) : CatOut :=
  fetchCatGo pages [] []

/-- One entry of the per-mosaic log written by the orchestrator loop:
either the mosaic was processed, or its failure was caught and logged by
the `except` at lines 222-223. -/
inductive LogEntry
  | processed (name : String) (quadCount : Nat)
  | failedMosaic (name : String)
deriving DecidableEq, Repr

/-- The body of the per-mosaic `try` (lines 218-221): fetch_quad_links
then download_all_quads, either of which may raise.  The two phases are
abstracted as `Except`-valued oracles keyed by the mosaic id. -/
def mosaicPhase (fetchQ : String → Except Unit (List QuadRecord))
    (dl : String → List QuadRecord → Except Unit Unit) (m : MosaicJ) :
    Except Unit Nat :=
  match fetchQ m.id with
  | .error e => .error e
  | .ok quads =>
    match dl m.id quads with
    | .error e => .error e
    | .ok _ => .ok quads.length

/-- The log entry produced for one mosaic by the orchestrator loop. -/
def mosaicEntry (fetchQ : String → Except Unit (List QuadRecord))
    (dl : String → List QuadRecord → Except Unit Unit) (m : MosaicJ) : LogEntry :=
  match mosaicPhase fetchQ dl m with
  | .error _ => .failedMosaic m.name
  | .ok n => .processed m.name n

/-- The orchestrator loop of download_nicfi_tiles (lines 210-223): the
TEST_MODE filter, then the try/except that converts a phase exception
into a logged failure and continues with the next mosaic. -/
def orchLoop (testMode : Bool) (testName : String)
    (fetchQ : String → Except Unit (List QuadRecord))
    (dl : String → List QuadRecord → Except Unit Unit) :
    List MosaicJ → List LogEntry → List LogEntry
  | [], log => log
  | m :: rest, log =>
    if testMode && m.name != testName then
      orchLoop testMode testName fetchQ dl rest log
    else
      match mosaicPhase fetchQ dl m with
      | .error _ => orchLoop testMode testName fetchQ dl rest (log ++ [.failedMosaic m.name])
      | .ok n => orchLoop testMode testName fetchQ dl rest (log ++ [.processed m.name n])

/-- download_nicfi_tiles (lines 201-223): the catalog listing is NOT
inside any try, so its exception propagates; otherwise the per-mosaic
loop runs (TEST_MODE is False in the source, line 16). -/
def download_nicfi_tiles (catPages : List CatFetch)
    (fetchQ : String → Except Unit (List QuadRecord))
    (dl : String → List QuadRecord → Except Unit Unit) :
    Except Unit (List LogEntry) :=
  match (fetch_nicfi_mosaics catPages).result with
  | .error e => .error e
  | .ok mosaics =>
    .ok (orchLoop false "planet_medres_normalized_analytic_2020-11_mosaic" fetchQ dl mosaics [])

/-- The `__main__` block (lines 225-229): any Exception from
download_nicfi_tiles is caught and logged, and the interpreter then
reaches the end of the script, so the process exit code is 0 on every
path. -/
def mainExit (catPages : List CatFetch)
    (fetchQ : String → Except Unit (List QuadRecord))
    (dl : String → List QuadRecord → Except Unit Unit) : Nat :=
  match download_nicfi_tiles catPages fetchQ dl with
  | .ok _ => 0
  | .error _ => 0

/-! ### Specification-side comparison functions -/

/-- The per-call retry delays that a per-page-resetting exponential
backoff would produce, and that the source's non-resetting delay
actually produces: starting from `d`, page after page, `itemDelays d fs`
lists the sleeps when page `i` fails `fs i` times, the delay doubling
after every failure and carrying over into the next page. -/
def itemDelays (d : Nat) : List Nat → List Nat
  | [] => []
  | f :: fs => attemptSleeps d f ++ itemDelays (d * 2 ^ f) fs

/-- An empty page with the given next link present. -/
def emptyPage (nxt : Option String) : Page := { items := [], links := some nxt }

/-- The all-successful walk with the given per-page failure counts: each
page is empty and carries a next link except the last. -/
def walkOf : List Nat → List PageFetch
  | [] => []
  | [f] => [.success f (emptyPage none)]
  | f :: g :: rest => .success f (emptyPage (some "next")) :: walkOf (g :: rest)

/-- A walk made of the given successful pages (with failure counts). -/
def successWalk (ps : List (Nat × Page)) : List PageFetch :=
  ps.map (fun fp => .success fp.1 fp.2)

/-! ### Concrete instances used in counterexamples and witnesses -/

/-- A well-formed item as served by the API. -/
def itemA : Item :=
  { id := some "qA", links := some (some "uA"), bbox := some [1],
    percent_covered := some 50 }

/-- The record that processing `itemA` for mosaic "m" appends. -/
def recA : QuadRecord :=
  { mosaic_id := "m", id := "qA", bbox := [1], percent_covered := 50,
    download_url := "uA" }

/-- A cached seed record for mosaic "m" with tile id "q1". -/
def seedRec : QuadRecord :=
  { mosaic_id := "m", id := "q1", bbox := [0], percent_covered := 1,
    download_url := "u" }

/-- An item whose key duplicates `seedRec` and which lacks both "bbox"
and "percent_covered". -/
def itemDup : Item :=
  { id := some "q1", links := some (some "u"), bbox := none,
    percent_covered := none }

/-- A quad dict with a valid download URL. -/
def quadX : DQuad :=
  { download_url := some (.str "http://x"), mosaic_id := some "m", id := some "q" }

/-- Network behaviour that drops every connection after zero bytes. -/
def netDrop : String → NetDl := fun _ => .streamFail []

/-- Network behaviour that fails every request before any byte. -/
def netErr : String → NetDl := fun _ => .err

/-- Network behaviour that serves the one-chunk body [7] everywhere. -/
def netOk7 : String → NetDl := fun _ => .ok [7]

/-- A filesystem in which no write fails. -/
def fsOk : String → Bool := fun _ => false

/-- A filesystem in which every write fails with OSError. -/
def fsBad : String → Bool := fun _ => true

/-- Invariant of the accumulating state of fetch_quad_links: the
accumulated records have pairwise distinct (collection, tile) keys, each
belongs to the collection being fetched, and each key is in the seen
set. -/
def Inv (mId : String) (acc : List QuadRecord) (seen : List (String × String)) : Prop :=
  (acc.map quadKey).Nodup ∧ ∀ r ∈ acc, r.mosaic_id = mId ∧ (mId, r.id) ∈ seen

/-! ### Counterexamples and defect witnesses -/

/-- Counterexample to claim C1 as stated: a record whose first download
attempt fails before any byte is written leaves no destination file, so
the second downloadAll run issues a network request again and its outcome
is a failure, not Already-Present. -/
theorem c1_counterexample :
    (download_all_quads [quadX] "mos" "base" netErr fsOk
        (download_all_quads [quadX] "mos" "base" netErr fsOk []).1.fs).2 =
      .ok [.downloadFailed] ∧
    ¬ ((download_all_quads [quadX] "mos" "base" netErr fsOk
          (download_all_quads [quadX] "mos" "base" netErr fsOk []).1.fs).1.netCalls = 0 ∧
       (download_all_quads [quadX] "mos" "base" netErr fsOk
          (download_all_quads [quadX] "mos" "base" netErr fsOk []).1.fs).2 =
         .ok [.alreadyPresent]) :=
  ⟨rfl, fun h => absurd h.1 (by decide)⟩

/-- Claim C2 (code bug): when the stream drops after zero bytes,
download_quad logs the failure and returns, but a zero-byte file remains
at the final destination path, and a subsequent call treats that file as
a completed download (Already-Present). -/
theorem c2_truncated_file_left :
    (download_quad quadX "out" netDrop fsOk []).result = .ok .downloadFailed ∧
    fsGet (download_quad quadX "out" netDrop fsOk []).fs (quadFilepath quadX "out") =
      some [] ∧
    (download_quad quadX "out" netDrop fsOk
        (download_quad quadX "out" netDrop fsOk []).fs).result = .ok .alreadyPresent :=
  ⟨rfl, rfl, rfl⟩

/-- Counterexample to claim C4 as stated: a walk whose first page
succeeds (appending one record) and whose second page exhausts its
retries returns the accumulated record, but the cache write-back and
save_cache are skipped. -/
theorem c4_counterexample :
    (fetch_quad_links "m" []
        [.success 0 { items := [itemA], links := some (some "next") }, .exhausted]).result =
      .ok [recA] ∧
    (fetch_quad_links "m" []
        [.success 0 { items := [itemA], links := some (some "next") }, .exhausted]).cacheWritten =
      false :=
  ⟨rfl, rfl⟩

/-- Counterexample to claim C5 as stated: with an empty cache seed and
retries exhausted on the very first page, fetch_quad_links does return
an empty set (still without raising). -/
theorem c5_counterexample :
    (fetch_quad_links "m" [] [.exhausted]).result = .ok [] ∧
    (fetch_quad_links "m" [] [.exhausted]).terminated = .exhaustedPage :=
  ⟨rfl, rfl⟩

/-- Counterexample to claim C6 as stated: when the catalog listing
exhausts its retries the run aborts (download_nicfi_tiles raises), but
the top-level handler catches the exception, so the process exit code is
0, not non-zero. -/
theorem c6_counterexample :
    mainExit [.exhausted] (fun _ => .ok []) (fun _ _ => .ok ()) = 0 ∧
    download_nicfi_tiles [.exhausted] (fun _ => .ok []) (fun _ _ => .ok ()) = .error () ∧
    ¬ (mainExit [.exhausted] (fun _ => .ok []) (fun _ _ => .ok ()) ≠ 0) :=
  ⟨rfl, rfl, fun h => h rfl⟩

/-- Counterexample to claim C8 as stated: after one failed attempt on
page one, the first retry delay on page two is 4 seconds, not the base
2 seconds — the delay does not reset per page. -/
theorem c8_counterexample :
    (fetch_quad_links "m" []
        [.success 1 (emptyPage (some "n")), .success 1 (emptyPage none)]).sleeps =
      [2, 4] ∧
    (fetch_quad_links "m" []
        [.success 1 (emptyPage (some "n")), .success 1 (emptyPage none)]).sleeps ≠
      [2, 2] :=
  ⟨rfl, by decide⟩

/-- Counterexample to claim C9 as stated: a filesystem write failure is
not converted into a logged per-tile outcome — download_quad raises, and
download_all_quads re-raises when gathering results. -/
theorem c9_counterexample :
    (download_quad quadX "base/mos" netOk7 fsBad []).result = .error () ∧
    (download_all_quads [quadX] "mos" "base" netOk7 fsBad []).2 = .error () :=
  ⟨rfl, rfl⟩

/-- Counterexample to claim C10 as stated: a page item lacking both
"bbox" and "percent_covered" whose key is already in the seen set is
skipped without raising, and the walk still terminates normally with the
cache written back. -/
theorem c10_counterexample :
    (fetch_quad_links "m" [seedRec]
        [.success 0 { items := [itemDup], links := some none }]).result =
      .ok [seedRec] ∧
    (fetch_quad_links "m" [seedRec]
        [.success 0 { items := [itemDup], links := some none }]).cacheWritten = true ∧
    (fetch_quad_links "m" [seedRec]
        [.success 0 { items := [itemDup], links := some none }]).terminated = .normal :=
  ⟨rfl, rfl, rfl⟩

/-! ### Structural lemmas about the fetch loop -/

/-- The cache write-back (and save_cache) runs exactly on the
normal-termination path of the fetch loop. -/
theorem fetchGo_cw_iff (mId : String) : ∀ (pages : List PageFetch)
    (acc : List QuadRecord) (seen : List (String × String)) (d : Nat) (s : List Nat),
    (fetchGo mId pages acc seen d s).cacheWritten = true ↔
    (fetchGo mId pages acc seen d s).terminated = .normal := by
  intro pages
  induction pages with
  | nil => intro acc seen d s; simp [fetchGo]
  | cons p rest ih =>
    intro acc seen d s
    cases p with
    | exhausted => simp [fetchGo]
    | success f page =>
      simp only [fetchGo]
      cases hpi : processItems mId (acc, seen) page.items with
      | error e => simp
      | ok st =>
        cases hl : page.links with
        | none => simp
        | some nxt =>
          cases nxt with
          | none => simp
          | some u => exact ih st.1 st.2 _ _

/-- A raised exception can only leave the fetch loop through the
`.raised` termination kind. -/
theorem fetchGo_error_raised (mId : String) : ∀ (pages : List PageFetch)
    (acc : List QuadRecord) (seen : List (String × String)) (d : Nat) (s : List Nat)
    (e : Unit), (fetchGo mId pages acc seen d s).result = .error e →
    (fetchGo mId pages acc seen d s).terminated = .raised := by
  intro pages
  induction pages with
  | nil => intro acc seen d s e h; exact absurd h (by simp [fetchGo])
  | cons p rest ih =>
    intro acc seen d s e h
    cases p with
    | exhausted => exact absurd h (by simp [fetchGo])
    | success f page =>
      simp only [fetchGo] at h ⊢
      cases hpi : processItems mId (acc, seen) page.items with
      | error e2 => simp [hpi]
      | ok st =>
        rw [hpi] at h
        cases hl : page.links with
        | none => simp [hl]
        | some nxt =>
          rw [hl] at h
          cases nxt with
          | none => simp at h
          | some u => exact ih st.1 st.2 _ _ e h

/-- Claim C4 (corrected): the updated record list is written back into
the persistent cache (and flushed) before fetch_quad_links returns only
when the walk terminates normally with all pages traversed; on early
termination — a page exhausting its retries, or a raise — the function
returns without writing back or flushing. -/
theorem c4_amended (mId : String) (cached : List QuadRecord) (pages : List PageFetch) :
    ((fetch_quad_links mId cached pages).terminated = .normal →
      (fetch_quad_links mId cached pages).cacheWritten = true) ∧
    ((fetch_quad_links mId cached pages).terminated ≠ .normal →
      (fetch_quad_links mId cached pages).cacheWritten = false) := by
  constructor
  · intro h
    exact (fetchGo_cw_iff mId pages cached (seedSeen mId cached) 2 []).mpr h
  · intro h
    cases hcw : (fetch_quad_links mId cached pages).cacheWritten with
    | false => rfl
    | true =>
      exact absurd ((fetchGo_cw_iff mId pages cached (seedSeen mId cached) 2 []).mp hcw) h

/-- Witness for `c4_amended`: a walk that completes normally does write
the cache back, and one cut short by retry exhaustion does not. -/
theorem c4_amended_witness :
    (fetch_quad_links "m" [] [.success 0 (emptyPage none)]).cacheWritten = true ∧
    (fetch_quad_links "m" []
        [.success 0 { items := [itemA], links := some (some "next") }, .exhausted]).cacheWritten =
      false :=
  ⟨(c4_amended "m" [] [.success 0 (emptyPage none)]).1 rfl,
   (c4_amended "m" []
      [.success 0 { items := [itemA], links := some (some "next") }, .exhausted]).2
     (by decide)⟩

/-- Claim C6 (corrected): a catalog-root listing failure aborts the run
— download_nicfi_tiles raises before any collection is processed — but
the `__main__` handler catches every exception and only logs it, so the
process exit code is 0 on every path; no failure yields a non-zero
exit. -/
theorem c6_amended (catPages : List CatFetch)
    (fetchQ : String → Except Unit (List QuadRecord))
    (dl : String → List QuadRecord → Except Unit Unit) :
    mainExit catPages fetchQ dl = 0 ∧
    ((fetch_nicfi_mosaics catPages).result = .error () →
      download_nicfi_tiles catPages fetchQ dl = .error ()) := by
  constructor
  · unfold mainExit
    cases download_nicfi_tiles catPages fetchQ dl <;> rfl
  · intro h
    unfold download_nicfi_tiles
    rw [h]

/-- Witness for `c6_amended`: at a concrete run whose catalog listing
exhausts its retries, the run aborts with a raise yet exits 0. -/
theorem c6_amended_witness :
    mainExit [CatFetch.exhausted] (fun _ => .ok [recA]) (fun _ _ => .ok ()) = 0 ∧
    download_nicfi_tiles [CatFetch.exhausted] (fun _ => .ok [recA]) (fun _ _ => .ok ()) =
      .error () :=
  ⟨(c6_amended [CatFetch.exhausted] (fun _ => .ok [recA]) (fun _ _ => .ok ())).1,
   (c6_amended [CatFetch.exhausted] (fun _ => .ok [recA]) (fun _ _ => .ok ())).2 rfl⟩

/-- The orchestrator loop produces exactly one log entry per visible
mosaic, in order, regardless of which phases raise. -/
theorem orchLoop_map (testName : String)
    (fetchQ : String → Except Unit (List QuadRecord))
    (dl : String → List QuadRecord → Except Unit Unit) :
    ∀ (ms : List MosaicJ) (log : List LogEntry),
    orchLoop false testName fetchQ dl ms log = log ++ ms.map (mosaicEntry fetchQ dl) := by
  intro ms
  induction ms with
  | nil => intro log; simp [orchLoop]
  | cons m rest ih =>
    intro log
    simp only [orchLoop, Bool.false_and, Bool.false_eq_true, if_neg, List.map_cons]
    cases hp : mosaicPhase fetchQ dl m with
    | error e =>
      have hme : mosaicEntry fetchQ dl m = .failedMosaic m.name := by
        unfold mosaicEntry; rw [hp]
      simp [ih, hme]
    | ok n =>
      have hme : mosaicEntry fetchQ dl m = .processed m.name n := by
        unfold mosaicEntry; rw [hp]
      simp [ih, hme]

/-- Claim C7 (confirmed): when the catalog listing succeeds, every
mosaic in it is processed by the loop; a mosaic whose fetch or download
phase raises contributes a logged failure entry and the loop proceeds,
so every remaining mosaic still gets its own entry — one failing
collection never aborts the rest. -/
theorem c7_per_collection_isolation (catPages : List CatFetch)
    (fetchQ : String → Except Unit (List QuadRecord))
    (dl : String → List QuadRecord → Except Unit Unit) (mosaics : List MosaicJ)
    (hcat : (fetch_nicfi_mosaics catPages).result = .ok mosaics) :
    download_nicfi_tiles catPages fetchQ dl = .ok (mosaics.map (mosaicEntry fetchQ dl)) ∧
    (mosaics.map (mosaicEntry fetchQ dl)).length = mosaics.length ∧
    ∀ m ∈ mosaics, mosaicPhase fetchQ dl m = .error () →
      mosaicEntry fetchQ dl m = .failedMosaic m.name := by
  refine ⟨?_, by simp, ?_⟩
  · have h2 := orchLoop_map "planet_medres_normalized_analytic_2020-11_mosaic" fetchQ dl mosaics []
    unfold download_nicfi_tiles
    rw [hcat]
    simp [h2]
  · intro m _ hm
    unfold mosaicEntry
    rw [hm]

set_option maxRecDepth 8192 in
/-- Witness for `c7_per_collection_isolation`: a two-mosaic catalog in
which the first mosaic's fetch phase raises still yields one entry per
mosaic, the first logged as failed, the second processed. -/
theorem c7_witness :
    download_nicfi_tiles
        [.success 0 { mosaics := [{ id := "a", name := "planet_medres_normalized_A" },
                                  { id := "b", name := "planet_medres_normalized_B" }],
                      next := none }]
        (fun i => if i == "a" then .error () else .ok [recA])
        (fun _ _ => .ok ()) =
      .ok [.failedMosaic "planet_medres_normalized_A",
           .processed "planet_medres_normalized_B" 1] :=
  (c7_per_collection_isolation
    [.success 0 { mosaics := [{ id := "a", name := "planet_medres_normalized_A" },
                              { id := "b", name := "planet_medres_normalized_B" }],
                  next := none }]
    (fun i => if i == "a" then .error () else .ok [recA])
    (fun _ _ => .ok ())
    [{ id := "a", name := "planet_medres_normalized_A" },
     { id := "b", name := "planet_medres_normalized_B" }] rfl).1

/-- Claim C10 (corrected): items lacking "id" or "_links" always raise;
"bbox" and "percent_covered" are read only for items that are new and
carry a truthy download link, and such an item raises if either field is
missing — but a malformed item whose key is already seen (or without a
download link) is skipped, not raised on; whenever a raise escapes
fetch_quad_links the cache write-back is skipped. -/
theorem c10_amended :
    (∀ (mId : String) (st : List QuadRecord × List (String × String)) (it : Item),
        it.id = none → processItem mId st it = .error ()) ∧
    (∀ (mId : String) (st : List QuadRecord × List (String × String)) (it : Item)
        (qid : String), it.id = some qid → it.links = none →
        processItem mId st it = .error ()) ∧
    (∀ (mId : String) (st : List QuadRecord × List (String × String)) (it : Item)
        (qid : String) (dl : Option String), it.id = some qid → it.links = some dl →
        (mId, qid) ∉ st.2 → truthy dl = true →
        (it.bbox = none ∨ it.percent_covered = none) →
        processItem mId st it = .error ()) ∧
    (∀ (mId : String) (st : List QuadRecord × List (String × String)) (it : Item)
        (qid : String) (dl : Option String), it.id = some qid → it.links = some dl →
        (mId, qid) ∈ st.2 → processItem mId st it = .ok st) ∧
    (∀ (mId : String) (cached : List QuadRecord) (pages : List PageFetch) (e : Unit),
        (fetch_quad_links mId cached pages).result = .error e →
        (fetch_quad_links mId cached pages).cacheWritten = false) := by
  refine ⟨?_, ?_, ?_, ?_, ?_⟩
  · intro mId st it h
    simp [processItem, h]
  · intro mId st it qid h1 h2
    simp [processItem, h1, h2]
  · intro mId st it qid dl hid hlinks hmem htr hbp
    cases dl with
    | none => exact absurd htr (by simp [truthy])
    | some u =>
      simp only [processItem, hid, hlinks]
      rw [if_pos ⟨hmem, htr⟩]
      rcases hbp with hb | hpc
      · rw [hb]
      · rw [hpc]
        cases it.bbox <;> rfl
  · intro mId st it qid dl hid hlinks hmem
    simp only [processItem, hid, hlinks]
    rw [if_neg (fun hc => hc.1 hmem)]
  · intro mId cached pages e h
    have hr : (fetch_quad_links mId cached pages).terminated = TermKind.raised :=
      fetchGo_error_raised mId pages cached (seedSeen mId cached) 2 [] e h
    cases hcw : (fetch_quad_links mId cached pages).cacheWritten with
    | false => rfl
    | true =>
      have hn : (fetch_quad_links mId cached pages).terminated = TermKind.normal :=
        (fetchGo_cw_iff mId pages cached (seedSeen mId cached) 2 []).mp hcw
      rw [hr] at hn
      exact absurd hn (by simp)

/-- Witness for `c10_amended`: an item missing "id" raises; a new item
with a download link but no "bbox" raises and the collection's cache
write-back is skipped. -/
theorem c10_amended_witness :
    processItem "m" ([], [])
      { id := none, links := none, bbox := none, percent_covered := none } = .error () ∧
    processItem "m" ([], [])
      { id := some "q2", links := some (some "u"), bbox := none,
        percent_covered := some 3 } = .error () ∧
    (fetch_quad_links "m" []
        [.success 0 { items := [{ id := none, links := none, bbox := none,
                                  percent_covered := none }], links := some none }]).cacheWritten =
      false :=
  ⟨c10_amended.1 "m" ([], [])
      { id := none, links := none, bbox := none, percent_covered := none } rfl,
   c10_amended.2.2.1 "m" ([], [])
      { id := some "q2", links := some (some "u"), bbox := none, percent_covered := some 3 }
      "q2" (some "u") rfl rfl (by decide) rfl (Or.inl rfl),
   c10_amended.2.2.2.2 "m" []
      [.success 0 { items := [{ id := none, links := none, bbox := none,
                                percent_covered := none }], links := some none }] () rfl⟩

/-! ### Dedup invariant -/

/-- Shape of a successful processItem step: either the item was skipped
and the state is unchanged, or exactly one record with a fresh key was
appended and its key added to the seen set. -/
theorem processItem_shape {mId : String} {acc : List QuadRecord}
    {seen : List (String × String)} {it : Item} {acc2 : List QuadRecord}
    {seen2 : List (String × String)}
    (hok : processItem mId (acc, seen) it = .ok (acc2, seen2)) :
    (acc2 = acc ∧ seen2 = seen) ∨
    ∃ qid u b pc, (mId, qid) ∉ seen ∧
      acc2 = acc ++ [{ mosaic_id := mId, id := qid, bbox := b,
                       percent_covered := pc, download_url := u }] ∧
      seen2 = seen ++ [(mId, qid)] := by
  cases hid : it.id with
  | none => simp [processItem, hid] at hok
  | some qid =>
    cases hl : it.links with
    | none => simp [processItem, hid, hl] at hok
    | some dl =>
      simp only [processItem, hid, hl] at hok
      by_cases hc : (mId, qid) ∉ seen ∧ truthy dl = true
      · rw [if_pos hc] at hok
        cases dl with
        | none => exact absurd hc.2 (by simp [truthy])
        | some u =>
          cases hb : it.bbox with
          | none =>
            rw [hb] at hok
            cases it.percent_covered <;> exact absurd hok (by simp)
          | some b =>
            rw [hb] at hok
            cases hpc : it.percent_covered with
            | none => rw [hpc] at hok; exact absurd hok (by simp)
            | some pc =>
              rw [hpc] at hok
              simp only [Except.ok.injEq, Prod.mk.injEq] at hok
              exact Or.inr ⟨qid, u, b, pc, hc.1, hok.1.symm, hok.2.symm⟩
      · rw [if_neg hc] at hok
        simp only [Except.ok.injEq, Prod.mk.injEq] at hok
        exact Or.inl ⟨hok.1.symm, hok.2.symm⟩

/-- A successful processItem step preserves the dedup invariant. -/
theorem processItem_inv {mId : String} {acc : List QuadRecord}
    {seen : List (String × String)} {it : Item} {acc2 : List QuadRecord}
    {seen2 : List (String × String)}
    (hok : processItem mId (acc, seen) it = .ok (acc2, seen2))
    (hinv : Inv mId acc seen) : Inv mId acc2 seen2 := by
  rcases processItem_shape hok with ⟨ha, hs⟩ | ⟨qid, u, b, pc, hfresh, ha, hs⟩
  · rw [ha, hs]; exact hinv
  · obtain ⟨hnd, hall⟩ := hinv
    subst ha hs
    constructor
    · rw [List.map_append]
      rw [List.nodup_append]
      refine ⟨hnd, List.nodup_singleton _, ?_⟩
      intro k hk hk2
      simp only [List.map_cons, List.map_nil, List.mem_singleton, quadKey] at hk2
      obtain ⟨r, hr, hkey⟩ := List.mem_map.mp hk
      obtain ⟨hrm, hrs⟩ := hall r hr
      apply hfresh
      rw [hk2] at hkey
      have hid2 : r.id = qid := congrArg Prod.snd hkey
      rw [← hid2]
      exact hrs
    · intro r hr
      rcases List.mem_append.mp hr with hin | hin
      · obtain ⟨hrm, hrs⟩ := hall r hin
        exact ⟨hrm, List.mem_append_left _ hrs⟩
      · rw [List.mem_singleton.mp hin]
        exact ⟨rfl, List.mem_append_right _ (List.mem_singleton.mpr rfl)⟩

/-- Processing a whole page of items preserves the dedup invariant. -/
theorem processItems_inv {mId : String} :
    ∀ (items : List Item) (acc : List QuadRecord) (seen : List (String × String))
      (acc2 : List QuadRecord) (seen2 : List (String × String)),
    processItems mId (acc, seen) items = .ok (acc2, seen2) →
    Inv mId acc seen → Inv mId acc2 seen2 := by
  intro items
  induction items with
  | nil =>
    intro acc seen acc2 seen2 hok hinv
    simp only [processItems, Except.ok.injEq, Prod.mk.injEq] at hok
    rw [← hok.1, ← hok.2]; exact hinv
  | cons it rest ih =>
    intro acc seen acc2 seen2 hok hinv
    simp only [processItems] at hok
    cases hpi : processItem mId (acc, seen) it with
    | error e => rw [hpi] at hok; exact absurd hok (by simp)
    | ok st =>
      rw [hpi] at hok
      exact ih st.1 st.2 acc2 seen2 hok (processItem_inv (by rw [hpi]) hinv)

/-- The fetch loop preserves the dedup invariant on every normal value
it returns. -/
theorem fetchGo_inv {mId : String} :
    ∀ (pages : List PageFetch) (acc : List QuadRecord)
      (seen : List (String × String)) (d : Nat) (s : List Nat) (r : List QuadRecord),
    Inv mId acc seen → (fetchGo mId pages acc seen d s).result = .ok r →
    (r.map quadKey).Nodup ∧ ∀ rec ∈ r, rec.mosaic_id = mId := by
  intro pages
  induction pages with
  | nil =>
    intro acc seen d s r hinv hok
    simp only [fetchGo, Except.ok.injEq] at hok
    rw [← hok]
    exact ⟨hinv.1, fun rec hrec => (hinv.2 rec hrec).1⟩
  | cons p rest ih =>
    intro acc seen d s r hinv hok
    cases p with
    | exhausted =>
      simp only [fetchGo, Except.ok.injEq] at hok
      rw [← hok]
      exact ⟨hinv.1, fun rec hrec => (hinv.2 rec hrec).1⟩
    | success f page =>
      simp only [fetchGo] at hok
      cases hpi : processItems mId (acc, seen) page.items with
      | error e => rw [hpi] at hok; exact absurd hok (by simp)
      | ok st =>
        rw [hpi] at hok
        have hst : Inv mId st.1 st.2 := processItems_inv page.items acc seen st.1 st.2 (by rw [hpi]) hinv
        cases hl : page.links with
        | none => rw [hl] at hok; exact absurd hok (by simp)
        | some nxt =>
          rw [hl] at hok
          cases nxt with
          | none =>
            simp only [Except.ok.injEq] at hok
            rw [← hok]
            exact ⟨hst.1, fun rec hrec => (hst.2 rec hrec).1⟩
          | some u => exact ih st.1 st.2 _ _ r hst hok

/-- The cache seed satisfies the dedup invariant whenever the cached
records were produced for this collection with pairwise distinct keys. -/
theorem inv_seed (mId : String) (cached : List QuadRecord)
    (hnd : (cached.map quadKey).Nodup)
    (hm : ∀ r ∈ cached, r.mosaic_id = mId) :
    Inv mId cached (seedSeen mId cached) :=
  ⟨hnd, fun r hr => ⟨hm r hr, List.mem_map_of_mem _ hr⟩⟩

/-- One fetch session preserves distinct keys and collection ownership. -/
theorem fetch_preserves (mId : String) (cached : List QuadRecord)
    (pages : List PageFetch) (r : List QuadRecord)
    (hnd : (cached.map quadKey).Nodup)
    (hm : ∀ rec ∈ cached, rec.mosaic_id = mId)
    (hok : (fetch_quad_links mId cached pages).result = .ok r) :
    (r.map quadKey).Nodup ∧ ∀ rec ∈ r, rec.mosaic_id = mId :=
  fetchGo_inv pages cached (seedSeen mId cached) 2 [] r (inv_seed mId cached hnd hm) hok

/-- Chaining sessions preserves the two facts about the cache entry. -/
theorem runSessions_aux (mId : String) :
    ∀ (sessions : List (List PageFetch)) (cached : List QuadRecord),
    (cached.map quadKey).Nodup → (∀ rec ∈ cached, rec.mosaic_id = mId) →
    ((sessions.foldl
        (fun cached pages =>
          match (fetch_quad_links mId cached pages).result with
          | .ok r => r
          | .error _ => cached)
        cached).map quadKey).Nodup ∧
    ∀ rec ∈ sessions.foldl
        (fun cached pages =>
          match (fetch_quad_links mId cached pages).result with
          | .ok r => r
          | .error _ => cached)
        cached, rec.mosaic_id = mId := by
  intro sessions
  induction sessions with
  | nil => intro cached hnd hm; exact ⟨hnd, hm⟩
  | cons s rest ih =>
    intro cached hnd hm
    rw [List.foldl_cons]
    cases hres : (fetch_quad_links mId cached s).result with
    | ok r =>
      have h2 := fetch_preserves mId cached s r hnd hm hres
      exact ih r h2.1 h2.2
    | error e => exact ih cached hnd hm

/-- Claim C3 (confirmed): a fetch session seeded from a cache entry with
pairwise distinct (collection, tile) keys returns a record set with
pairwise distinct keys, and any sequence of fetch sessions against the
same collection, starting from the program's initial empty cache and
with any placement of items across page boundaries, yields a cached
record set with no duplicate composite key. -/
theorem c3_dedup :
    (∀ (mId : String) (cached : List QuadRecord) (pages : List PageFetch)
        (r : List QuadRecord),
      (cached.map quadKey).Nodup → (∀ rec ∈ cached, rec.mosaic_id = mId) →
      (fetch_quad_links mId cached pages).result = .ok r →
      (r.map quadKey).Nodup ∧ ∀ rec ∈ r, rec.mosaic_id = mId) ∧
    (∀ (mId : String) (sessions : List (List PageFetch)),
      ((runSessions mId sessions).map quadKey).Nodup) := by
  constructor
  · exact fetch_preserves
  · intro mId sessions
    exact (runSessions_aux mId sessions [] (by simp) (by simp)).1

/-- Witness for `c3_dedup`: a session seeded with one cached record that
appends one new record keeps the keys pairwise distinct. -/
theorem c3_dedup_witness :
    (([seedRec, recA]).map quadKey).Nodup :=
  (c3_dedup.1 "m" [seedRec] [.success 0 { items := [itemA], links := some none }]
    [seedRec, recA] (by decide) (by decide) rfl).1

/-! ### Partial-page resilience -/

/-- A successful processItems run only appends records to the
accumulator. -/
theorem processItems_app {mId : String} :
    ∀ (items : List Item) (acc : List QuadRecord) (seen : List (String × String))
      (acc2 : List QuadRecord) (seen2 : List (String × String)),
    processItems mId (acc, seen) items = .ok (acc2, seen2) → ∃ t, acc2 = acc ++ t := by
  intro items
  induction items with
  | nil =>
    intro acc seen acc2 seen2 hok
    simp only [processItems, Except.ok.injEq, Prod.mk.injEq] at hok
    exact ⟨[], by rw [← hok.1, List.append_nil]⟩
  | cons it rest ih =>
    intro acc seen acc2 seen2 hok
    simp only [processItems] at hok
    cases hpi : processItem mId (acc, seen) it with
    | error e => rw [hpi] at hok; exact absurd hok (by simp)
    | ok st =>
      rw [hpi] at hok
      obtain ⟨t2, ht2⟩ := ih st.1 st.2 acc2 seen2 hok
      rcases @processItem_shape mId acc seen it st.1 st.2 (by rw [hpi]) with
        ⟨ha, _⟩ | ⟨qid, u, b, pc, _, ha, _⟩
      · exact ⟨t2, by rw [ht2, ha]⟩
      · exact ⟨[{ mosaic_id := mId, id := qid, bbox := b, percent_covered := pc,
                  download_url := u }] ++ t2, by rw [ht2, ha, List.append_assoc]⟩

/-- A successful processPages run only appends records. -/
theorem processPages_app {mId : String} :
    ∀ (pgs : List Page) (acc : List QuadRecord) (seen : List (String × String))
      (acc2 : List QuadRecord) (seen2 : List (String × String)),
    processPages mId (acc, seen) pgs = .ok (acc2, seen2) → ∃ t, acc2 = acc ++ t := by
  intro pgs
  induction pgs with
  | nil =>
    intro acc seen acc2 seen2 hok
    simp only [processPages, Except.ok.injEq, Prod.mk.injEq] at hok
    exact ⟨[], by rw [← hok.1, List.append_nil]⟩
  | cons p rest ih =>
    intro acc seen acc2 seen2 hok
    simp only [processPages] at hok
    cases hpi : processItems mId (acc, seen) p.items with
    | error e => rw [hpi] at hok; exact absurd hok (by simp)
    | ok st =>
      rw [hpi] at hok
      obtain ⟨t2, ht2⟩ := ih st.1 st.2 acc2 seen2 hok
      obtain ⟨t1, ht1⟩ := processItems_app p.items acc seen st.1 st.2 (by rw [hpi])
      exact ⟨t1 ++ t2, by rw [ht2, ht1, List.append_assoc]⟩

/-- Walking a block of successful pages and then exhausting retries on
the next page returns exactly the records the successful pages
accumulated. -/
theorem fetchGo_exhaust {mId : String} :
    ∀ (ps : List (Nat × Page)) (rest : List PageFetch) (acc : List QuadRecord)
      (seen : List (String × String)) (d : Nat) (s : List Nat)
      (acc2 : List QuadRecord) (seen2 : List (String × String)),
    processPages mId (acc, seen) (ps.map Prod.snd) = .ok (acc2, seen2) →
    (∀ fp ∈ ps, ∃ u, fp.2.links = some (some u)) →
    (fetchGo mId (successWalk ps ++ .exhausted :: rest) acc seen d s).result = .ok acc2 ∧
    (fetchGo mId (successWalk ps ++ .exhausted :: rest) acc seen d s).terminated =
      .exhaustedPage := by
  intro ps
  induction ps with
  | nil =>
    intro rest acc seen d s acc2 seen2 hpp hnx
    simp only [List.map_nil, processPages, Except.ok.injEq, Prod.mk.injEq] at hpp
    rw [← hpp.1]
    simp [successWalk, fetchGo]
  | cons fp rest2 ih =>
    intro rest acc seen d s acc2 seen2 hpp hnx
    obtain ⟨u, hu⟩ := hnx fp (List.mem_cons_self _ _)
    simp only [List.map_cons, processPages] at hpp
    simp only [successWalk, List.map_cons, List.cons_append, fetchGo]
    cases hpi : processItems mId (acc, seen) fp.2.items with
    | error e => rw [hpi] at hpp; exact absurd hpp (by simp)
    | ok st =>
      rw [hpi] at hpp
      rw [hu]
      exact ih rest st.1 st.2 _ _ acc2 seen2 hpp
        (fun q hq => hnx q (List.mem_cons_of_mem _ hq))

/-- Claim C5 (corrected): when a page exhausts its retries after a block
of successful pages, fetch_quad_links returns normally (no exception)
with exactly the records gathered from the cache seed and those pages;
the result extends the seed, so it is nonempty whenever the seed or a
prior page contributed a record — but it is the empty set when nothing
was gathered. -/
theorem c5_partial_page (mId : String) (seed : List QuadRecord)
    (ps : List (Nat × Page)) (rest : List PageFetch) (gathered : List QuadRecord)
    (seen2 : List (String × String))
    (hpp : processPages mId (seed, seedSeen mId seed) (ps.map Prod.snd) =
      .ok (gathered, seen2))
    (hnx : ∀ fp ∈ ps, ∃ u, fp.2.links = some (some u)) :
    (fetch_quad_links mId seed (successWalk ps ++ .exhausted :: rest)).result =
      .ok gathered ∧
    (fetch_quad_links mId seed (successWalk ps ++ .exhausted :: rest)).terminated =
      .exhaustedPage ∧
    ∃ t, gathered = seed ++ t := by
  have h := fetchGo_exhaust ps rest seed (seedSeen mId seed) 2 [] gathered seen2 hpp hnx
  exact ⟨h.1, h.2, processPages_app (ps.map Prod.snd) seed (seedSeen mId seed)
    gathered seen2 hpp⟩

/-- Witness for `c5_partial_page`: one successful page contributing one
record, then retry exhaustion: the call returns that record normally. -/
theorem c5_partial_page_witness :
    (fetch_quad_links "m"
        [] (successWalk [(0, { items := [itemA], links := some (some "n") })] ++
            .exhausted :: [])).result = .ok [recA] ∧
    (fetch_quad_links "m"
        [] (successWalk [(0, { items := [itemA], links := some (some "n") })] ++
            .exhausted :: [])).terminated = .exhaustedPage ∧
    ∃ t, [recA] = [] ++ t := by
  refine c5_partial_page "m" [] [(0, { items := [itemA], links := some (some "n") })]
    [] [recA] [("m", "qA")] rfl ?_
  intro fp hfp
  rw [List.mem_singleton] at hfp
  subst hfp
  exact ⟨"n", rfl⟩

/-! ### Retry and backoff policy -/

/-- Sleeps of the fetch loop on an all-successful walk: the delay starts
at `d` and doubles after every failed attempt, carrying over from page
to page within the call. -/
theorem fetchGo_walk_sleeps (mId : String) :
    ∀ (counts : List Nat) (acc : List QuadRecord) (seen : List (String × String))
      (d : Nat) (s : List Nat), counts ≠ [] →
    (fetchGo mId (walkOf counts) acc seen d s).sleeps = s ++ itemDelays d counts := by
  intro counts
  induction counts with
  | nil => intro acc seen d s h; exact absurd rfl h
  | cons f rest ih =>
    intro acc seen d s _
    cases rest with
    | nil =>
      simp [walkOf, fetchGo, processItems, emptyPage, itemDelays]
    | cons g rest2 =>
      have hne : g :: rest2 ≠ [] := by simp
      simp only [walkOf, fetchGo, processItems, emptyPage]
      rw [ih acc seen (d * 2 ^ f) (s ++ attemptSleeps d f) hne]
      simp [itemDelays, List.append_assoc]

/-- Claim C8 (corrected): every remote listing call makes at most five
attempts; the catalog root sleeps a constant 10 seconds between
attempts (`f` failures before success yield `f` ten-second sleeps, total
failure yields four then a raise); item-page listing starts at a
2-second delay and doubles it after every failed attempt, but the delay
carries over from page to page within one fetch_quad_links call instead
of resetting to the base for each new page; exhausting one page costs
five sleeps of 2,4,8,16,32 seconds. -/
theorem c8_retry_policy :
    (∀ (f : Nat) (page : CatPage) (rest : List CatFetch), f < 5 → page.next = none →
      (fetch_nicfi_mosaics (.success f page :: rest)).sleeps = List.replicate f 10) ∧
    (∀ rest : List CatFetch,
      (fetch_nicfi_mosaics (.exhausted :: rest)).sleeps = List.replicate 4 10 ∧
      (fetch_nicfi_mosaics (.exhausted :: rest)).result = .error ()) ∧
    (∀ (mId : String) (counts : List Nat), counts ≠ [] →
      (fetch_quad_links mId [] (walkOf counts)).sleeps = itemDelays 2 counts) ∧
    (∀ (mId : String) (cached : List QuadRecord),
      (fetch_quad_links mId cached [.exhausted]).sleeps = [2, 4, 8, 16, 32]) := by
  refine ⟨?_, ?_, ?_, ?_⟩
  · intro f page rest _ hn
    simp [fetch_nicfi_mosaics, fetchCatGo, hn]
  · intro rest
    exact ⟨by simp [fetch_nicfi_mosaics, fetchCatGo], rfl⟩
  · intro mId counts hne
    have h := fetchGo_walk_sleeps mId counts [] (seedSeen mId []) 2 [] hne
    rw [fetch_quad_links, h]
    simp
  · intro mId cached
    rfl

/-- Witness for `c8_retry_policy`: the catalog page that succeeds after
one failure sleeps once for 10 seconds, and a two-page item walk with
one failure on each page sleeps 2 then 4 seconds. -/
theorem c8_retry_policy_witness :
    (fetch_nicfi_mosaics [.success 1 { mosaics := [], next := none }]).sleeps =
      List.replicate 1 10 ∧
    (fetch_quad_links "m" [] (walkOf [1, 1])).sleeps = itemDelays 2 [1, 1] :=
  ⟨c8_retry_policy.1 1 { mosaics := [], next := none } [] (by decide) rfl,
   c8_retry_policy.2.2.1 "m" [1, 1] (by decide)⟩

/-! ### Download idempotence -/

/-- After writing a file, the file exists. -/
theorem fsHas_fsSet_self (fs : FS) (p : String) (b : List Nat) :
    fsHas (fsSet fs p b) p = true := by
  simp [fsSet, fsHas]

/-- Writing one file never removes another. -/
theorem fsHas_fsSet_mono (fs : FS) (p q : String) (b : List Nat)
    (h : fsHas fs q = true) : fsHas (fsSet fs p b) q = true := by
  by_cases hpq : p = q
  · subst hpq; exact fsHas_fsSet_self fs p b
  · obtain ⟨e, he, heq⟩ := List.any_eq_true.mp h
    have heq2 : e.1 = q := by simpa using heq
    apply List.any_eq_true.mpr
    refine ⟨e, List.mem_cons_of_mem _ (List.mem_filter.mpr ⟨he, ?_⟩), heq⟩
    have : e.1 ≠ p := by rw [heq2]; exact fun hh => hpq hh.symm
    simpa using this

/-- The filesystem after download_quad is either unchanged or has one
file written at the quad's derived path. -/
theorem download_quad_fs_cases (quad : DQuad) (dir : String) (net : String → NetDl)
    (fw : String → Bool) (fs : FS) :
    (download_quad quad dir net fw fs).fs = fs ∨
    ∃ b, (download_quad quad dir net fw fs).fs = fsSet fs (quadFilepath quad dir) b := by
  cases hurl : quad.download_url with
  | none => exact Or.inl (by simp [download_quad, hurl])
  | some v =>
    cases v with
    | other => exact Or.inl (by simp [download_quad, hurl])
    | str u =>
      by_cases hf : fsHas fs (quadFilepath quad dir) = true
      · exact Or.inl (by simp [download_quad, hurl, hf])
      · cases hnet : net u with
        | err => exact Or.inl (by simp [download_quad, hurl, hf, hnet])
        | ok body =>
          by_cases hw : fw (quadFilepath quad dir) = true
          · exact Or.inl (by simp [download_quad, hurl, hf, hnet, hw])
          · exact Or.inr ⟨body, by simp [download_quad, hurl, hf, hnet, hw]⟩
        | streamFail got =>
          by_cases hw : fw (quadFilepath quad dir) = true
          · exact Or.inl (by simp [download_quad, hurl, hf, hnet, hw])
          · exact Or.inr ⟨got, by simp [download_quad, hurl, hf, hnet, hw]⟩

/-- An existing file survives any download_quad call. -/
theorem download_quad_fs_mono (quad : DQuad) (dir : String) (net : String → NetDl)
    (fw : String → Bool) (fs : FS) (x : String) (h : fsHas fs x = true) :
    fsHas (download_quad quad dir net fw fs).fs x = true := by
  rcases download_quad_fs_cases quad dir net fw fs with hc | ⟨b, hc⟩
  · rw [hc]; exact h
  · rw [hc]; exact fsHas_fsSet_mono fs _ x b h

/-- A download that completed had a valid URL and left the destination
file in place. -/
theorem download_quad_downloaded (quad : DQuad) (dir : String) (net : String → NetDl)
    (fw : String → Bool) (fs : FS)
    (h : (download_quad quad dir net fw fs).result = .ok .downloaded) :
    (∃ u, quad.download_url = some (.str u)) ∧
    fsHas (download_quad quad dir net fw fs).fs (quadFilepath quad dir) = true := by
  cases hurl : quad.download_url with
  | none => simp [download_quad, hurl] at h
  | some v =>
    cases v with
    | other => simp [download_quad, hurl] at h
    | str u =>
      by_cases hf : fsHas fs (quadFilepath quad dir) = true
      · simp [download_quad, hurl, hf] at h
      · cases hnet : net u with
        | err => simp [download_quad, hurl, hf, hnet] at h
        | ok body =>
          by_cases hw : fw (quadFilepath quad dir) = true
          · simp [download_quad, hurl, hf, hnet, hw] at h
          · refine ⟨⟨u, rfl⟩, ?_⟩
            have hgoal := fsHas_fsSet_self fs (quadFilepath quad dir) body
            simpa [download_quad, hurl, hf, hnet, hw] using hgoal
        | streamFail got =>
          by_cases hw : fw (quadFilepath quad dir) = true
          · simp [download_quad, hurl, hf, hnet, hw] at h
          · simp [download_quad, hurl, hf, hnet, hw] at h

/-- When the URL is valid and the destination file exists, download_quad
short-circuits: Already-Present, no network call, filesystem untouched. -/
theorem download_quad_present (quad : DQuad) (dir : String) (net : String → NetDl)
    (fw : String → Bool) (fs : FS) (u : String)
    (hurl : quad.download_url = some (.str u))
    (hfs : fsHas fs (quadFilepath quad dir) = true) :
    download_quad quad dir net fw fs =
      { result := .ok .alreadyPresent, fs := fs, netCalls := 0 } := by
  simp [download_quad, hurl, hfs]

/-- The accumulators of runQuads merely shift its output. -/
theorem runQuads_shift (dir : String) (net : String → NetDl) (fw : String → Bool) :
    ∀ (quads : List DQuad) (fs : FS) (n : Nat) (acc : List (Except Unit Outcome)),
    runQuads dir net fw quads fs n acc =
      { results := acc ++ (runQuads dir net fw quads fs 0 []).results,
        fs := (runQuads dir net fw quads fs 0 []).fs,
        netCalls := n + (runQuads dir net fw quads fs 0 []).netCalls } := by
  intro quads
  induction quads with
  | nil => intro fs n acc; simp [runQuads]
  | cons q rest ih =>
    intro fs n acc
    simp only [runQuads]
    rw [ih _ (n + (download_quad q dir net fw fs).netCalls)
          (acc ++ [(download_quad q dir net fw fs).result]),
        ih _ (0 + (download_quad q dir net fw fs).netCalls)
          ([] ++ [(download_quad q dir net fw fs).result])]
    simp [List.append_assoc, Nat.add_assoc]

/-- Existing files survive a whole batch. -/
theorem runQuads_fs_mono (dir : String) (net : String → NetDl) (fw : String → Bool) :
    ∀ (quads : List DQuad) (fs : FS) (n : Nat) (acc : List (Except Unit Outcome))
      (x : String), fsHas fs x = true →
    fsHas (runQuads dir net fw quads fs n acc).fs x = true := by
  intro quads
  induction quads with
  | nil => intro fs n acc x h; exact h
  | cons q rest ih =>
    intro fs n acc x h
    simp only [runQuads]
    exact ih _ _ _ x (download_quad_fs_mono q dir net fw fs x h)

/-- The filesystem of a batch starting at `q0 :: rest` is that of the
tail batch started on the filesystem `q0` leaves behind. -/
theorem runQuads_cons_fs (dir : String) (net : String → NetDl) (fw : String → Bool)
    (q0 : DQuad) (rest : List DQuad) (fs : FS) :
    (runQuads dir net fw (q0 :: rest) fs 0 []).fs =
    (runQuads dir net fw rest (download_quad q0 dir net fw fs).fs 0 []).fs := by
  have h := runQuads_shift dir net fw rest (download_quad q0 dir net fw fs).fs
    (0 + (download_quad q0 dir net fw fs).netCalls)
    ([] ++ [(download_quad q0 dir net fw fs).result])
  calc (runQuads dir net fw (q0 :: rest) fs 0 []).fs
      = (runQuads dir net fw rest (download_quad q0 dir net fw fs).fs
          (0 + (download_quad q0 dir net fw fs).netCalls)
          ([] ++ [(download_quad q0 dir net fw fs).result])).fs := rfl
    _ = _ := by rw [h]

/-- The results of a batch starting at `q0 :: rest` are `q0`'s result
followed by the tail batch's results. -/
theorem runQuads_cons_results (dir : String) (net : String → NetDl) (fw : String → Bool)
    (q0 : DQuad) (rest : List DQuad) (fs : FS) :
    (runQuads dir net fw (q0 :: rest) fs 0 []).results =
    (download_quad q0 dir net fw fs).result ::
      (runQuads dir net fw rest (download_quad q0 dir net fw fs).fs 0 []).results := by
  have h := runQuads_shift dir net fw rest (download_quad q0 dir net fw fs).fs
    (0 + (download_quad q0 dir net fw fs).netCalls)
    ([] ++ [(download_quad q0 dir net fw fs).result])
  calc (runQuads dir net fw (q0 :: rest) fs 0 []).results
      = (runQuads dir net fw rest (download_quad q0 dir net fw fs).fs
          (0 + (download_quad q0 dir net fw fs).netCalls)
          ([] ++ [(download_quad q0 dir net fw fs).result])).results := rfl
    _ = _ := by rw [h]; simp

/-- If every task of a batch reported a completed download, then every
quad had a valid URL and its destination file exists afterwards. -/
theorem runQuads_all_downloaded (dir : String) (net : String → NetDl) (fw : String → Bool) :
    ∀ (quads : List DQuad) (fs : FS),
    (∀ res ∈ (runQuads dir net fw quads fs 0 []).results, res = .ok .downloaded) →
    ∀ q ∈ quads, (∃ u, q.download_url = some (.str u)) ∧
      fsHas (runQuads dir net fw quads fs 0 []).fs (quadFilepath q dir) = true := by
  intro quads
  induction quads with
  | nil => intro fs _ q hq; exact absurd hq (List.not_mem_nil q)
  | cons q0 rest ih =>
    intro fs h q hq
    rw [runQuads_cons_results] at h
    rw [runQuads_cons_fs]
    have h0 : (download_quad q0 dir net fw fs).result = .ok .downloaded :=
      h _ (List.mem_cons_self _ _)
    have hrest : ∀ res ∈ (runQuads dir net fw rest
        (download_quad q0 dir net fw fs).fs 0 []).results, res = .ok .downloaded :=
      fun res hres => h res (List.mem_cons_of_mem _ hres)
    rcases List.mem_cons.mp hq with rfl | hq2
    · obtain ⟨hu, hf⟩ := download_quad_downloaded q dir net fw fs h0
      exact ⟨hu, runQuads_fs_mono dir net fw rest _ 0 [] _ hf⟩
    · exact ih (download_quad q0 dir net fw fs).fs hrest q hq2

/-- When every quad's URL is valid and its file already exists, the
whole batch is Already-Present with no network calls and no filesystem
change. -/
theorem runQuads_all_present (dir : String) (net : String → NetDl) (fw : String → Bool) :
    ∀ (quads : List DQuad) (fs : FS) (n : Nat) (acc : List (Except Unit Outcome)),
    (∀ q ∈ quads, (∃ u, q.download_url = some (.str u)) ∧
      fsHas fs (quadFilepath q dir) = true) →
    runQuads dir net fw quads fs n acc =
      { results := acc ++ quads.map (fun _ => .ok .alreadyPresent),
        fs := fs, netCalls := n } := by
  intro quads
  induction quads with
  | nil => intro fs n acc _; simp [runQuads]
  | cons q0 rest ih =>
    intro fs n acc h
    obtain ⟨⟨u, hu⟩, hf⟩ := h q0 (List.mem_cons_self _ _)
    have hdq := download_quad_present q0 dir net fw fs u hu hf
    simp only [runQuads, hdq]
    rw [ih _ _ _ (fun q hq => h q (List.mem_cons_of_mem _ hq))]
    simp

/-- Gathering the results of an all-ok batch yields the outcome list. -/
theorem firstError_all_present :
    ∀ (quads : List DQuad),
    firstError (quads.map fun _ => Except.ok Outcome.alreadyPresent) =
      .ok (quads.map fun _ => Outcome.alreadyPresent) := by
  intro quads
  induction quads with
  | nil => rfl
  | cons q rest ih => simp only [List.map_cons, firstError, ih]

/-- Gathering results re-raises when some task raised. -/
theorem firstError_mem_error :
    ∀ (l : List (Except Unit Outcome)), Except.error () ∈ l →
    firstError l = .error () := by
  intro l
  induction l with
  | nil => intro h; exact absurd h (List.not_mem_nil _)
  | cons a rest ih =>
    intro h
    cases a with
    | error e => cases e; rfl
    | ok o =>
      rcases List.mem_cons.mp h with hh | hh
      · exact absurd hh.symm (by simp)
      · simp only [firstError, ih hh]

/-- Claim C1 (corrected): a record whose URL is a string and whose
derived destination file already exists yields Already-Present with no
network call and no filesystem change; and provided every record of the
first downloadAll run completed its download, a second run over the
same records and destination performs zero network calls and reports
Already-Present for every record.  (Without that proviso the claim
fails: a record whose first-run fetch errors before the file is opened
is re-fetched on the second run.) -/
theorem c1_amended :
    (∀ (quad : DQuad) (dir : String) (net : String → NetDl) (fw : String → Bool)
        (fs : FS) (u : String),
      quad.download_url = some (.str u) → fsHas fs (quadFilepath quad dir) = true →
      download_quad quad dir net fw fs =
        { result := .ok .alreadyPresent, fs := fs, netCalls := 0 }) ∧
    (∀ (quads : List DQuad) (name base : String) (net : String → NetDl)
        (fw : String → Bool) (fs0 : FS),
      (∀ res ∈ (download_all_quads quads name base net fw fs0).1.results,
        res = .ok .downloaded) →
      (download_all_quads quads name base net fw
          (download_all_quads quads name base net fw fs0).1.fs).1.netCalls = 0 ∧
      (download_all_quads quads name base net fw
          (download_all_quads quads name base net fw fs0).1.fs).2 =
        .ok (quads.map fun _ => .alreadyPresent)) := by
  constructor
  · exact download_quad_present
  · intro quads name base net fw fs0 h
    have hconds := runQuads_all_downloaded (base ++ "/" ++ name) net fw quads fs0 h
    have hrun := runQuads_all_present (base ++ "/" ++ name) net fw quads
      (runQuads (base ++ "/" ++ name) net fw quads fs0 0 []).fs 0 [] hconds
    constructor
    · simp only [download_all_quads]
      rw [hrun]
    · simp only [download_all_quads]
      rw [hrun]
      exact firstError_all_present quads

set_option maxRecDepth 8192 in
/-- Witness for `c1_amended`: one record downloads successfully on the
first run, and the second run is a pure skip with zero requests. -/
theorem c1_amended_witness :
    (download_all_quads [quadX] "mos" "base" netOk7 fsOk
        (download_all_quads [quadX] "mos" "base" netOk7 fsOk []).1.fs).1.netCalls = 0 ∧
    (download_all_quads [quadX] "mos" "base" netOk7 fsOk
        (download_all_quads [quadX] "mos" "base" netOk7 fsOk []).1.fs).2 =
      .ok ([quadX].map fun _ => .alreadyPresent) :=
  c1_amended.2 [quadX] "mos" "base" netOk7 fsOk []
    (fun _ hres => List.eq_of_mem_singleton hres)

/-- Claim C9 (corrected): a transfer error (RequestException) is indeed
converted into a logged per-tile failure outcome; but a filesystem write
failure raises out of download_quad uncaught.  Every submitted download
still runs (one result per submitted quad), and download_all_quads then
re-raises the stored exception while gathering results, so the batch
call itself propagates the error to the per-collection handler instead
of reporting a per-tile outcome. -/
theorem c9_amended :
    (∀ (quad : DQuad) (dir : String) (net : String → NetDl) (fw : String → Bool)
        (fs : FS) (u : String),
      quad.download_url = some (.str u) → fsHas fs (quadFilepath quad dir) = false →
      net u = .err →
      download_quad quad dir net fw fs =
        { result := .ok .downloadFailed, fs := fs, netCalls := 1 }) ∧
    (∀ (dir : String) (net : String → NetDl) (fw : String → Bool) (quads : List DQuad)
        (fs : FS) (n : Nat) (acc : List (Except Unit Outcome)),
      (runQuads dir net fw quads fs n acc).results.length = acc.length + quads.length) ∧
    (∀ (quads : List DQuad) (name base : String) (net : String → NetDl)
        (fw : String → Bool) (fs : FS),
      Except.error () ∈ (download_all_quads quads name base net fw fs).1.results →
      (download_all_quads quads name base net fw fs).2 = .error ()) := by
  refine ⟨?_, ?_, ?_⟩
  · intro quad dir net fw fs u hurl hfs hnet
    simp [download_quad, hurl, hfs, hnet]
  · intro dir net fw quads
    induction quads with
    | nil => intro fs n acc; simp [runQuads]
    | cons q rest ih =>
      intro fs n acc
      simp only [runQuads]
      rw [ih]
      simp [List.length_append]
      omega
  · intro quads name base net fw fs hmem
    exact firstError_mem_error _ hmem

set_option maxRecDepth 8192 in
/-- Witness for `c9_amended`: a network failure yields a logged failure
outcome with the filesystem untouched, while a quad whose write raises
makes the whole batch call return the exception. -/
theorem c9_amended_witness :
    download_quad quadX "base/mos" netErr fsOk [] =
      { result := .ok .downloadFailed, fs := [], netCalls := 1 } ∧
    (download_all_quads [quadX] "mos" "base" netOk7 fsBad []).2 = .error () :=
  ⟨c9_amended.1 quadX "base/mos" netErr fsOk [] "http://x" rfl rfl rfl,
   c9_amended.2.2 [quadX] "mos" "base" netOk7 fsBad [] (List.mem_singleton.mpr rfl)⟩

end NICFI
